import Mathlib

/-!
Shallow embedding of the lyric synchronization and playback-timing engine of
the karaoke player (source files KaraokeScreen.tsx and geminiService.ts).

Strings are processed at the character-list level so that every operation
(line splitting, trimming, timestamp matching) is an executable Lean
function mirroring the JavaScript string operations used by the source.
Rational numbers stand in for JavaScript floating-point values; the media
duration is an `Option ℚ` where `none` models a duration that is not a
finite number (`NaN` before metadata loads, or `Infinity`).
-/

namespace WG

/-- A parsed lyric line: the displayed text and its start time in seconds.
Mirrors the TimedLine interface of KaraokeScreen.tsx. -/
structure TimedLine where
  text : String
  startTime : ℚ
  deriving DecidableEq, Repr

/-- Whitespace as recognized by the JavaScript trim operation
(restricted to the characters that can occur in lyric text). -/
def isJsSpace (c : Char) : Bool :=
  c == ' ' || c == '\t' || c == '\n' || c == '\r' ||
  c == '\u000b' || c == '\u000c' || c == ' '

/-- Remove leading and trailing whitespace, as the JavaScript trim method. -/
def trimChars (cs : List Char) : List Char :=
  ((cs.dropWhile isJsSpace).reverse.dropWhile isJsSpace).reverse

/-- Split a character sequence at newline characters, as the JavaScript
split method with separator newline: the empty input yields one empty line. -/
def splitLines : List Char → List (List Char)
  | [] => [[]]
  | c :: cs =>
    if c == '\n' then [] :: splitLines cs
    else
      match splitLines cs with
      | [] => [[c]]
      | l :: ls => (c :: l) :: ls

/-- The captured groups of one timestamp match of the pattern
`[` digit digit `:` digit digit (`.` or `:`) two-or-three digits `]`,
which is the lrcTimestampRegex of KaraokeScreen.tsx. -/
structure TsMatch where
  m1 : Char
  m2 : Char
  s1 : Char
  s2 : Char
  frac : List Char
  deriving DecidableEq, Repr

/-- Try to match the timestamp pattern at the very start of the input,
returning the match and the remaining characters after the closing bracket.
The two-or-three digit fractional group is greedy, exactly as the regular
expression `\[(\d{2}):(\d{2})[.:](\d{2,3})\]`: three digits are taken when
the third digit is followed by the closing bracket, else two. -/
def matchTsAt (cs : List Char) : Option (TsMatch × List Char) :=
  match cs with
  | '[' :: a :: b :: ':' :: c :: d :: sep :: e :: f :: rest =>
    if a.isDigit && b.isDigit && c.isDigit && d.isDigit &&
        (sep == '.' || sep == ':') && e.isDigit && f.isDigit then
      match rest with
      | ']' :: rest2 => some (⟨a, b, c, d, [e, f]⟩, rest2)
      | g :: ']' :: rest2 =>
        if g.isDigit then some (⟨a, b, c, d, [e, f, g]⟩, rest2) else none
      | _ => none
    else none
  | _ => none

/-- Fueled left-to-right scan collecting every timestamp match, resuming
after each match and advancing one character on a failed position. The fuel
is structural so that concrete instances reduce in the kernel; a fuel of at
least the input length is always sufficient (see scanTsF_fuel). -/
def scanTsF : ℕ → List Char → List TsMatch
  | 0, _ => []
  | _ + 1, [] => []
  | fuel + 1, c :: cs =>
    match matchTsAt (c :: cs) with
    | some (m, rest) => m :: scanTsF fuel rest
    | none => scanTsF fuel cs

/-- All timestamp matches found in a line, scanning left to right and
resuming after each match, as the JavaScript matchAll with a global
regular expression. -/
def scanTs (cs : List Char) : List TsMatch := scanTsF cs.length cs

/-- Fueled removal of every timestamp match, mirroring scanTsF. -/
def stripTsF : ℕ → List Char → List Char
  | 0, _ => []
  | _ + 1, [] => []
  | fuel + 1, c :: cs =>
    match matchTsAt (c :: cs) with
    | some (_, rest) => stripTsF fuel rest
    | none => c :: stripTsF fuel cs

/-- Remove every timestamp match from a line, as the JavaScript replace
method with the global timestamp regular expression and empty replacement. -/
def stripTs (cs : List Char) : List Char := stripTsF cs.length cs

/-- Numeric value of a decimal digit character. -/
def digitVal (c : Char) : ℕ := c.toNat - 48

/-- Value of a string of decimal digit characters, as parseInt base 10. -/
def digitsToNat (cs : List Char) : ℕ :=
  cs.foldl (fun acc c => 10 * acc + digitVal c) 0

/-- Start time in seconds of one timestamp match:
minutes times sixty plus seconds plus the fractional part, which is
hundredths for a two-digit group and thousandths for a three-digit group. -/
def tsStartTime (m : TsMatch) : ℚ :=
  (digitsToNat [m.m1, m.m2] : ℚ) * 60 + (digitsToNat [m.s1, m.s2] : ℚ) +
    (digitsToNat m.frac : ℚ) / (if m.frac.length = 2 then 100 else 1000)

/-- The non-empty lines of the raw lyric text: split at newlines, keep the
lines whose trimmed form is non-empty (the original untrimmed line is kept). -/
def nonEmptyLines (lyrics : String) : List (List Char) :=
  (splitLines lyrics.data).filter (fun l => !(trimChars l).isEmpty)

/-- One TimedLine per timestamp match of each line, the text being the line
with all timestamps removed and then trimmed, in line order then match order. -/
def parseLrcLines (lines : List (List Char)) : List TimedLine :=
  lines.flatMap (fun l =>
    (scanTs l).map (fun m => ⟨String.mk (trimChars (stripTs l)), tsStartTime m⟩))

/-- Comparison by start time: the ascending preorder induced by the
JavaScript comparator subtracting start times. -/
def byStartTime (a b : TimedLine) : Prop := a.startTime ≤ b.startTime

instance : DecidableRel byStartTime :=
  fun a b => inferInstanceAs (Decidable (a.startTime ≤ b.startTime))

instance : IsTotal TimedLine byStartTime :=
  ⟨fun a b => le_total a.startTime b.startTime⟩

instance : IsTrans TimedLine byStartTime :=
  ⟨fun _ _ _ hab hbc => le_trans hab hbc⟩

/-- Ascending stable sort by start time, as the JavaScript stable sort with
comparator subtracting start times. A stable ascending sort is unique as a
function of the input, so insertion sort is a faithful model of it. -/
def sortByStartTime (l : List TimedLine) : List TimedLine :=
  l.insertionSort byStartTime

/-- Even-division timing for plain text lines: with a known finite positive
duration, line i starts at i times duration over the number of lines;
otherwise every line starts at zero as a placeholder.
Mirrors calculateTimings of KaraokeScreen.tsx, with `none` standing for a
non-finite duration. -/
def calculateTimings (lines : List (List Char)) (duration : Option ℚ) : List TimedLine :=
  match duration with
  | none => lines.map (fun l => ⟨String.mk l, 0⟩)
  | some d =>
    if d ≤ 0 then lines.map (fun l => ⟨String.mk l, 0⟩)
    else
      let timePerLine := d / (lines.length : ℚ)
      lines.enum.map (fun p => ⟨String.mk p.2, (p.1 : ℚ) * timePerLine⟩)

/-- The lyric parsing pass of KaraokeScreen.tsx: split into non-empty lines,
extract timestamps; when at least one line carried a timestamp the extracted
lines sorted by start time are returned, otherwise even-division timing is
applied with whatever duration is available at this pass. -/
def parseLyrics (lyrics : String) (audioDuration : Option ℚ) : List TimedLine :=
  let lines := nonEmptyLines lyrics
  if lines.isEmpty then []
  else
    let parsedLrcLines := parseLrcLines lines
    let isLrc := lines.any (fun l => decide (scanTs l ≠ []))
    if isLrc && decide (parsedLrcLines ≠ []) then sortByStartTime parsedLrcLines
    else calculateTimings lines audioDuration

/-- The state update performed by the lyric-parsing effect: on an empty
lyric string the effect returns early and the previous sequence is kept
(the initial sequence is empty), otherwise the sequence is rebuilt. -/
def updateTimedLyrics (prev : List TimedLine) (lyrics : String)
    (audioDuration : Option ℚ) : List TimedLine :=
  if lyrics = "" then prev else parseLyrics lyrics audioDuration

/-- Default line used for out-of-bounds index access in the model. -/
def defaultTL : TimedLine := ⟨"", 0⟩

/-- Start time of the line at a given index of the sequence. -/
def tlStart (l : List TimedLine) (i : ℕ) : ℚ :=
  (l.getD i defaultTL).startTime

/-- Backward scan from index n-1 down to 0, as the descending for loop of
the animate callback: the first index reached whose offset-adjusted start
time is at or before the clock position, else -1. -/
def scanBack (l : List TimedLine) (off t : ℚ) : ℕ → Int
  | 0 => -1
  | i + 1 => if tlStart l i + off ≤ t then (i : Int) else scanBack l off t i

/-- The per-tick active index computation of the animate loop in
KaraokeScreen.tsx: a linear backward scan over the whole sequence. The
JavaScript condition currentTime >= startTime + offset is written here as
startTime + offset <= t. -/
def resolveActiveIndex (l : List TimedLine) (off t : ℚ) : Int :=
  scanBack l off t l.length

/-- The resolver specification, following the spec text: the greatest index
whose offset-adjusted start time is at or before the clock position, and -1
when no such index exists (in particular for the empty sequence). -/
def specActiveIndex (l : List TimedLine) (off t : ℚ) : Int :=
  match ((List.range l.length).filter
      (fun i => decide (tlStart l i + off ≤ t))).max? with
  | none => -1
  | some m => (m : Int)

/-- The component state read and written by the animate loop. The playback
rate is part of the state (it is applied to the audio element by its own
effect) but the resolution itself never reads it. -/
structure KaraokeState where
  timedLyrics : List TimedLine
  timingOffset : ℚ
  playbackRate : ℚ
  currentTime : ℚ
  currentLineIndex : Int
  deriving DecidableEq, Repr

/-- One tick of the animate loop: recompute the active index from the
sequence, the offset and the clock position, storing it only when it
differs from the previous value. -/
def animateTick (s : KaraokeState) : KaraokeState :=
  let newIndex := resolveActiveIndex s.timedLyrics s.timingOffset s.currentTime
  { s with currentLineIndex :=
      if s.currentLineIndex ≠ newIndex then newIndex else s.currentLineIndex }

/-- Marquee animation duration of KaraokeScreen.tsx. The audio duration
argument is `some d` when the media element reports a numeric duration and
`none` when it does not (NaN before metadata loads); the JavaScript
truthiness test on the duration is additionally false for a zero duration,
hence the inner test against zero. -/
def getMarqueeDuration (timedLyrics : List TimedLine) (currentLineIndex : Int)
    (audioDuration : Option ℚ) : ℚ :=
  if currentLineIndex < 0 ∨ timedLyrics = [] then 0
  else
    let currentLine := timedLyrics.getD currentLineIndex.toNat defaultTL
    match timedLyrics[currentLineIndex.toNat + 1]? with
    | some nextLine => nextLine.startTime - currentLine.startTime
    | none =>
      match audioDuration with
      | some d => if d ≠ 0 then d - currentLine.startTime else 5
      | none => 5

/-- One line passes the line-anchored timestamp test of geminiService.ts:
after trimming, the line begins with a timestamp match. -/
def lrcLineTest (l : List Char) : Bool := (matchTsAt (trimChars l)).isSome

/-- The validation predicate isLrcFormat of geminiService.ts: reject the
empty text; split the trimmed text at newlines; accept when the timestamped
fraction of those lines (interior empty lines included in the denominator)
exceeds one half. -/
def isLrcFormat (text : String) : Bool :=
  if text = "" then false
  else
    let lines := splitLines (trimChars text.data)
    let lrcLinesCount := (lines.filter lrcLineTest).length
    decide (0 < lines.length) &&
      decide ((1 : ℚ) / 2 < (lrcLinesCount : ℚ) / (lines.length : ℚ))

/-- Modelled from the claim wording, for comparison with isLrcFormat:
accept exactly when more than half of the non-empty lines of the text pass
the timestamp test. -/
def isLrcFormatSpec (text : String) : Bool :=
  let lines := (splitLines text.data).filter (fun l => !(trimChars l).isEmpty)
  decide (lines.length < 2 * (lines.filter lrcLineTest).length)

/-!
Theorems. The helper lemmas characterize the backward scan and the sorting
pass; the claim theorems follow.
-/

theorem matchTsAt_length {cs : List Char} {m : TsMatch} {rest : List Char}
    (h : matchTsAt cs = some (m, rest)) : rest.length < cs.length := by
  unfold matchTsAt at h
  split at h
  · split at h
    · split at h
      · cases h
        simp
        omega
      · split at h
        · cases h
          simp
          omega
        · exact absurd h (by simp)
      · exact absurd h (by simp)
    · exact absurd h (by simp)
  · exact absurd h (by simp)

theorem scanTsF_fuel : ∀ (fuel fuel2 : ℕ) (cs : List Char),
    cs.length ≤ fuel → cs.length ≤ fuel2 → scanTsF fuel cs = scanTsF fuel2 cs := by
  intro fuel
  induction fuel with
  | zero =>
    intro fuel2 cs h1 _
    have hcs : cs = [] := List.length_eq_zero.mp (Nat.le_zero.mp h1)
    subst hcs
    cases fuel2 <;> rfl
  | succ n ih =>
    intro fuel2 cs h1 h2
    cases cs with
    | nil => cases fuel2 <;> rfl
    | cons c cs =>
      cases fuel2 with
      | zero => simp at h2
      | succ m =>
        simp only [scanTsF]
        cases hm : matchTsAt (c :: cs) with
        | none =>
          simp only [List.length_cons] at h1 h2
          exact ih m cs (Nat.lt_succ_iff.mp h1) (Nat.lt_succ_iff.mp h2)
        | some p =>
          obtain ⟨tm, rest⟩ := p
          have hlt := matchTsAt_length hm
          simp only [List.length_cons] at h1 h2 hlt
          exact congrArg _ (ih m rest (by omega) (by omega))

theorem stripTsF_fuel : ∀ (fuel fuel2 : ℕ) (cs : List Char),
    cs.length ≤ fuel → cs.length ≤ fuel2 → stripTsF fuel cs = stripTsF fuel2 cs := by
  intro fuel
  induction fuel with
  | zero =>
    intro fuel2 cs h1 _
    have hcs : cs = [] := List.length_eq_zero.mp (Nat.le_zero.mp h1)
    subst hcs
    cases fuel2 <;> rfl
  | succ n ih =>
    intro fuel2 cs h1 h2
    cases cs with
    | nil => cases fuel2 <;> rfl
    | cons c cs =>
      cases fuel2 with
      | zero => simp at h2
      | succ m =>
        simp only [stripTsF]
        cases hm : matchTsAt (c :: cs) with
        | none =>
          simp only [List.length_cons] at h1 h2
          exact congrArg _ (ih m cs (Nat.lt_succ_iff.mp h1) (Nat.lt_succ_iff.mp h2))
        | some p =>
          obtain ⟨tm, rest⟩ := p
          have hlt := matchTsAt_length hm
          simp only [List.length_cons] at h1 h2 hlt
          exact ih m rest (by omega) (by omega)

theorem scanBack_spec (l : List TimedLine) (off t : ℚ) :
    ∀ n : ℕ,
      (scanBack l off t n = -1 ∧ ∀ i, i < n → t < tlStart l i + off) ∨
      (∃ i : ℕ, i < n ∧ scanBack l off t n = (i : Int) ∧ tlStart l i + off ≤ t ∧
        ∀ j, i < j → j < n → t < tlStart l j + off) := by
  intro n
  induction n with
  | zero => exact Or.inl ⟨rfl, fun i hi => absurd hi (Nat.not_lt_zero i)⟩
  | succ n ih =>
    by_cases h : tlStart l n + off ≤ t
    · refine Or.inr ⟨n, Nat.lt_succ_self n, ?_, h, fun j hj hjn => ?_⟩
      · simp [scanBack, h]
      · omega
    · have hs : scanBack l off t (n + 1) = scanBack l off t n := by simp [scanBack, h]
      rcases ih with ⟨h1, h2⟩ | ⟨i, hi, hval, hle, hgt⟩
      · refine Or.inl ⟨hs.trans h1, fun i hi => ?_⟩
        rcases Nat.lt_succ_iff_lt_or_eq.mp hi with hlt | rfl
        · exact h2 i hlt
        · exact lt_of_not_le h
      · refine Or.inr ⟨i, Nat.lt_succ_of_lt hi, hs.trans hval, hle, fun j hj hjn => ?_⟩
        rcases Nat.lt_succ_iff_lt_or_eq.mp hjn with hlt | rfl
        · exact hgt j hj hlt
        · exact lt_of_not_le h

theorem resolve_eq_specIndex (l : List TimedLine) (off t : ℚ) :
    resolveActiveIndex l off t = specActiveIndex l off t := by
  unfold resolveActiveIndex specActiveIndex
  rcases scanBack_spec l off t l.length with ⟨h1, h2⟩ | ⟨i, hi, hval, hle, hgt⟩
  · have hfil : (List.range l.length).filter
        (fun i => decide (tlStart l i + off ≤ t)) = [] := by
      rw [List.filter_eq_nil_iff]
      intro a ha
      simp only [decide_eq_true_eq]
      exact not_le_of_lt (h2 a (List.mem_range.mp ha))
    rw [h1, hfil]
    rfl
  · have hmax : ((List.range l.length).filter
        (fun i => decide (tlStart l i + off ≤ t))).max? = some i := by
      rw [List.max?_eq_some_iff (fun a => Nat.le_refl a)
        (fun a b => by omega) (fun a b c => by omega)]
      constructor
      · rw [List.mem_filter]
        exact ⟨List.mem_range.mpr hi, by simpa using hle⟩
      · intro b hb
        rw [List.mem_filter] at hb
        by_contra hbi
        exact absurd hb.2
          (by simpa using not_le_of_lt (hgt b (by omega) (List.mem_range.mp hb.1)))
    rw [hval, hmax]

/-- C1: for every timed-line sequence sorted ascending by startTime, every
offset and every clock position t, the animate loop computes the active
index as the greatest index i with startTime i + offset <= t, and -1 when
no such index exists (empty sequence included). The inclusive lower bound
and the highest-index tie-break are both captured by the equality with
specActiveIndex, the greatest-index specification function. -/
theorem claim_C1_resolver (l : List TimedLine) (off t : ℚ)
    (hsorted : l.Pairwise byStartTime) :
    resolveActiveIndex l off t = specActiveIndex l off t :=
  resolve_eq_specIndex l off t

/-- Witness for C1 is the spec example: starts 0, 5, 10, offset -0.3,
clock 5, where the resolver and the specification agree. -/
theorem claim_C1_resolver_witness :
    ([⟨"a", 0⟩, ⟨"b", 5⟩, ⟨"c", 10⟩] : List TimedLine).Pairwise byStartTime ∧
    resolveActiveIndex [⟨"a", 0⟩, ⟨"b", 5⟩, ⟨"c", 10⟩] (-3/10) 5 =
      specActiveIndex [⟨"a", 0⟩, ⟨"b", 5⟩, ⟨"c", 10⟩] (-3/10) 5 :=
  ⟨by decide, claim_C1_resolver _ _ _ (by decide)⟩

/-- C10: the active-index resolution of a tick is identical across any two
playback-rate settings; the rate only drives how fast the clock advances
and is never read by the resolution itself. -/
theorem claim_C10_rate_noninterference (s : KaraokeState) (r1 r2 : ℚ) :
    (animateTick { s with playbackRate := r1 }).currentLineIndex =
      (animateTick { s with playbackRate := r2 }).currentLineIndex := rfl

theorem calculateTimings_sorted (lines : List (List Char)) (d : Option ℚ) :
    (calculateTimings lines d).Pairwise byStartTime := by
  have hzero : (lines.map (fun l => (⟨String.mk l, 0⟩ : TimedLine))).Pairwise byStartTime := by
    rw [List.pairwise_map]
    exact List.pairwise_of_forall (fun _ _ => le_refl (0 : ℚ))
  unfold calculateTimings
  match d with
  | none => exact hzero
  | some x =>
    by_cases hx : x ≤ 0
    · simpa [hx] using hzero
    · simp only [hx, if_false]
      rw [List.pairwise_iff_getElem]
      intro i j hi hj hij
      simp only [List.length_map, List.enumFrom_length, List.enum] at hi hj
      have hlen : i < lines.enum.length := by simpa [List.enum] using hi
      have hlen2 : j < lines.enum.length := by simpa [List.enum] using hj
      simp only [List.getElem_map, List.enum, List.getElem_enumFrom, byStartTime]
      have hq : (0 : ℚ) < x / (lines.length : ℚ) := by
        apply div_pos (lt_of_not_le hx)
        exact_mod_cast (by omega : 0 < lines.length)
      exact mul_le_mul_of_nonneg_right
        (by exact_mod_cast Nat.le_of_lt (by omega)) (le_of_lt hq)

theorem parseLyrics_sorted (lyrics : String) (d : Option ℚ) :
    (parseLyrics lyrics d).Pairwise byStartTime := by
  dsimp only [parseLyrics]
  split
  · exact List.Pairwise.nil
  · split
    · exact List.sorted_insertionSort byStartTime _
    · exact calculateTimings_sorted _ _

theorem sortByStartTime_stable (l : List TimedLine) (c : ℚ) :
    (sortByStartTime l).filter (fun tl => decide (tl.startTime = c)) =
      l.filter (fun tl => decide (tl.startTime = c)) := by
  have hpair : (l.filter (fun tl => decide (tl.startTime = c))).Pairwise byStartTime := by
    apply List.pairwise_of_forall_mem_list
    intro a ha b hb
    have h1 := (List.mem_filter.mp ha).2
    have h2 := (List.mem_filter.mp hb).2
    simp only [decide_eq_true_eq] at h1 h2
    unfold byStartTime
    rw [h1, h2]
  have hsub : List.Sublist (l.filter (fun tl => decide (tl.startTime = c))) (sortByStartTime l) :=
    List.sublist_insertionSort hpair (List.filter_sublist l)
  have hsub2 : List.Sublist (l.filter (fun tl => decide (tl.startTime = c)))
      ((sortByStartTime l).filter (fun tl => decide (tl.startTime = c))) := by
    have h3 := hsub.filter (fun tl => decide (tl.startTime = c))
    rwa [List.filter_filter, (by simp : (fun (tl : TimedLine) =>
      decide (tl.startTime = c) && decide (tl.startTime = c)) =
      (fun tl => decide (tl.startTime = c)))] at h3
  have hlen : ((sortByStartTime l).filter (fun tl => decide (tl.startTime = c))).length =
      (l.filter (fun tl => decide (tl.startTime = c))).length :=
    ((List.perm_insertionSort byStartTime l).filter _).length_eq
  exact (hsub2.eq_of_length hlen.symm).symm

/-- C2: for every raw lyric input and duration, the parsed sequence has
non-decreasing startTime in index order; moreover the timestamped branch
sorts its extracted lines stably: for every start-time value, the extracted
lines carrying it appear in the sorted output exactly in extraction order,
stated as equality of the two filters. -/
theorem claim_C2_sorted_stable (lyrics : String) (d : Option ℚ) (c : ℚ) :
    (parseLyrics lyrics d).Pairwise byStartTime ∧
      (sortByStartTime (parseLrcLines (nonEmptyLines lyrics))).filter
          (fun tl => decide (tl.startTime = c)) =
        (parseLrcLines (nonEmptyLines lyrics)).filter
          (fun tl => decide (tl.startTime = c)) :=
  ⟨parseLyrics_sorted lyrics d, sortByStartTime_stable _ c⟩

theorem parseLyrics_lrc_branch (lyrics : String)
    (h : ∃ l ∈ nonEmptyLines lyrics, scanTs l ≠ []) (d : Option ℚ) :
    parseLyrics lyrics d = sortByStartTime (parseLrcLines (nonEmptyLines lyrics)) := by
  obtain ⟨w, hw, hne⟩ := h
  obtain ⟨m, hm⟩ := List.exists_mem_of_ne_nil _ hne
  have hnonempty : (nonEmptyLines lyrics).isEmpty = false :=
    List.isEmpty_eq_false.mpr (List.ne_nil_of_mem hw)
  have hany : (nonEmptyLines lyrics).any (fun l => decide (scanTs l ≠ [])) = true :=
    List.any_eq_true.mpr ⟨w, hw, by simpa using hne⟩
  have hparsed : parseLrcLines (nonEmptyLines lyrics) ≠ [] := by
    apply List.ne_nil_of_mem (a := ⟨String.mk (trimChars (stripTs w)), tsStartTime m⟩)
    exact List.mem_flatMap.mpr ⟨w, hw, List.mem_map_of_mem _ hm⟩
  dsimp only [parseLyrics]
  rw [hnonempty, hany]
  simp [hparsed]

/-- C9: when at least one line of the input carries a valid timestamp, every
line carrying none is dropped entirely: the output length is the total
number of timestamp matches over all non-empty lines, and every output
element originates from a line with at least one match, carrying that line's
stripped text and one of its match start times. -/
theorem claim_C9_plain_lines_dropped (lyrics : String) (d : Option ℚ)
    (h : ∃ l ∈ nonEmptyLines lyrics, scanTs l ≠ []) :
    (parseLyrics lyrics d).length =
        ((nonEmptyLines lyrics).map (fun l => (scanTs l).length)).sum ∧
      ∀ tl ∈ parseLyrics lyrics d, ∃ l ∈ nonEmptyLines lyrics, scanTs l ≠ [] ∧
        tl.text = String.mk (trimChars (stripTs l)) ∧
        ∃ m ∈ scanTs l, tl.startTime = tsStartTime m := by
  rw [parseLyrics_lrc_branch lyrics h d]
  constructor
  · rw [sortByStartTime, List.length_insertionSort, parseLrcLines, List.length_flatMap]
    congr 1
    exact List.map_congr_left (fun l _ => List.length_map _ _)
  · intro tl htl
    rw [sortByStartTime, List.mem_insertionSort] at htl
    obtain ⟨l, hl, hmem⟩ := List.mem_flatMap.mp htl
    obtain ⟨m, hm, hEq⟩ := List.mem_map.mp hmem
    exact ⟨l, hl, List.ne_nil_of_mem hm, by rw [← hEq], m, hm, by rw [← hEq]⟩

/-- Witness for C9: a mixed input where the plain second line is dropped and
only the timestamped first line appears. -/
theorem claim_C9_witness :
    (∃ l ∈ nonEmptyLines "[00:01.00]a\nplain", scanTs l ≠ []) ∧
      ((parseLyrics "[00:01.00]a\nplain" none).length =
          ((nonEmptyLines "[00:01.00]a\nplain").map (fun l => (scanTs l).length)).sum ∧
        ∀ tl ∈ parseLyrics "[00:01.00]a\nplain" none,
          ∃ l ∈ nonEmptyLines "[00:01.00]a\nplain", scanTs l ≠ [] ∧
            tl.text = String.mk (trimChars (stripTs l)) ∧
            ∃ m ∈ scanTs l, tl.startTime = tsStartTime m) :=
  ⟨by decide, claim_C9_plain_lines_dropped _ none (by decide)⟩

theorem parseLyrics_fallback (lyrics : String) (d : Option ℚ)
    (hno : ∀ l ∈ nonEmptyLines lyrics, scanTs l = []) :
    parseLyrics lyrics d = calculateTimings (nonEmptyLines lyrics) d := by
  dsimp only [parseLyrics]
  by_cases hE : (nonEmptyLines lyrics).isEmpty
  · rw [if_pos hE]
    rw [List.isEmpty_iff] at hE
    rw [hE]
    cases d with
    | none => rfl
    | some x =>
      dsimp only [calculateTimings]
      split <;> simp
  · rw [if_neg hE]
    have hany : (nonEmptyLines lyrics).any (fun l => decide (scanTs l ≠ [])) = false :=
      List.any_eq_false.mpr (fun l hl => by simpa using hno l hl)
    rw [hany]
    simp

/-- C4: for an input with no timestamps anywhere, with a known finite
positive duration D and N non-empty lines, line i receives startTime
i * (D / N) exactly; with an unknown duration every line receives the
placeholder 0; and the even-division pass re-run with the real duration
(what the one-shot metadata listener computes) is exactly the
known-duration parse. -/
theorem claim_C4_even_division (lyrics : String) (D : ℚ) (hD : 0 < D)
    (hno : ∀ l ∈ nonEmptyLines lyrics, scanTs l = []) :
    ((parseLyrics lyrics (some D)).length = (nonEmptyLines lyrics).length ∧
      ∀ i : ℕ, i < (nonEmptyLines lyrics).length →
        (parseLyrics lyrics (some D))[i]? =
          some ⟨String.mk ((nonEmptyLines lyrics).getD i []),
            (i : ℚ) * (D / ((nonEmptyLines lyrics).length : ℚ))⟩) ∧
    parseLyrics lyrics none = (nonEmptyLines lyrics).map (fun l => ⟨String.mk l, 0⟩) ∧
    parseLyrics lyrics (some D) = calculateTimings (nonEmptyLines lyrics) (some D) := by
  have hfb := parseLyrics_fallback lyrics (some D) hno
  have hDn : ¬ D ≤ 0 := not_le_of_lt hD
  refine ⟨⟨?_, ?_⟩, ?_, hfb⟩
  · rw [hfb]
    simp [calculateTimings, hDn, List.enum]
  · intro i hi
    rw [hfb]
    simp only [calculateTimings, hDn, if_false, List.getElem?_map, List.enum,
      List.getElem?_enumFrom, List.getElem?_eq_getElem hi, Option.map_some, Nat.zero_add]
    rw [List.getD_eq_getElem _ _ hi]
    simp
  · rw [parseLyrics_fallback lyrics none hno]
    rfl

/-- Witness for C4: two plain lines with duration 10 give start times
0 and 5. -/
theorem claim_C4_even_division_witness :
    ((0 : ℚ) < 10 ∧ ∀ l ∈ nonEmptyLines "a\nb", scanTs l = []) ∧
      (((parseLyrics "a\nb" (some 10)).length = (nonEmptyLines "a\nb").length ∧
        ∀ i : ℕ, i < (nonEmptyLines "a\nb").length →
          (parseLyrics "a\nb" (some 10))[i]? =
            some ⟨String.mk ((nonEmptyLines "a\nb").getD i []),
              (i : ℚ) * (10 / ((nonEmptyLines "a\nb").length : ℚ))⟩) ∧
      parseLyrics "a\nb" none = (nonEmptyLines "a\nb").map (fun l => ⟨String.mk l, 0⟩) ∧
      parseLyrics "a\nb" (some 10) = calculateTimings (nonEmptyLines "a\nb") (some 10)) :=
  ⟨⟨by norm_num, by decide⟩, claim_C4_even_division "a\nb" 10 (by norm_num) (by decide)⟩

theorem matchTsAt_two_digit (m1 m2 s1 s2 f1 f2 sep : Char) (rest : List Char)
    (hm1 : m1.isDigit = true) (hm2 : m2.isDigit = true)
    (hs1 : s1.isDigit = true) (hs2 : s2.isDigit = true)
    (hf1 : f1.isDigit = true) (hf2 : f2.isDigit = true)
    (hsep : sep = '.' ∨ sep = ':') :
    matchTsAt ('[' :: m1 :: m2 :: ':' :: s1 :: s2 :: sep :: f1 :: f2 :: ']' :: rest) =
      some (⟨m1, m2, s1, s2, [f1, f2]⟩, rest) := by
  have hsepEq : (sep == '.' || sep == ':') = true := by
    rcases hsep with rfl | rfl <;> decide
  simp only [matchTsAt, hm1, hm2, hs1, hs2, hf1, hf2, hsepEq, Bool.and_self,
    Bool.and_true, Bool.true_and, if_true]

theorem matchTsAt_three_digit (m1 m2 s1 s2 f1 f2 f3 sep : Char) (rest : List Char)
    (hm1 : m1.isDigit = true) (hm2 : m2.isDigit = true)
    (hs1 : s1.isDigit = true) (hs2 : s2.isDigit = true)
    (hf1 : f1.isDigit = true) (hf2 : f2.isDigit = true) (hf3 : f3.isDigit = true)
    (hsep : sep = '.' ∨ sep = ':') :
    matchTsAt ('[' :: m1 :: m2 :: ':' :: s1 :: s2 :: sep :: f1 :: f2 :: f3 :: ']' :: rest) =
      some (⟨m1, m2, s1, s2, [f1, f2, f3]⟩, rest) := by
  have hsepEq : (sep == '.' || sep == ':') = true := by
    rcases hsep with rfl | rfl <;> decide
  have hne : f3 ≠ ']' := by
    intro hEq
    rw [hEq] at hf3
    exact absurd hf3 (by decide)
  simp only [matchTsAt, hm1, hm2, hs1, hs2, hf1, hf2, hsepEq, Bool.and_self,
    Bool.and_true, Bool.true_and, if_true]
  simp [hf3]


theorem tsStartTime_two_digit (m1 m2 s1 s2 f1 f2 : Char) :
    tsStartTime ⟨m1, m2, s1, s2, [f1, f2]⟩ =
      ((10 * digitVal m1 + digitVal m2 : ℕ) : ℚ) * 60 +
        ((10 * digitVal s1 + digitVal s2 : ℕ) : ℚ) +
        ((10 * digitVal f1 + digitVal f2 : ℕ) : ℚ) / 100 := by
  simp only [tsStartTime, digitsToNat, List.foldl_cons, List.foldl_nil,
    List.length_cons, List.length_nil]
  push_cast
  norm_num

theorem tsStartTime_three_digit (m1 m2 s1 s2 f1 f2 f3 : Char) :
    tsStartTime ⟨m1, m2, s1, s2, [f1, f2, f3]⟩ =
      ((10 * digitVal m1 + digitVal m2 : ℕ) : ℚ) * 60 +
        ((10 * digitVal s1 + digitVal s2 : ℕ) : ℚ) +
        ((100 * digitVal f1 + 10 * digitVal f2 + digitVal f3 : ℕ) : ℚ) / 1000 := by
  simp only [tsStartTime, digitsToNat, List.foldl_cons, List.foldl_nil,
    List.length_cons, List.length_nil]
  push_cast
  norm_num
  ring

theorem parseLyrics_roundTrip (d : Option ℚ) :
    parseLyrics "[00:15.32] A\n[00:17.81] B" d = [⟨"A", 1532/100⟩, ⟨"B", 1781/100⟩] := by
  have h1 : nonEmptyLines "[00:15.32] A\n[00:17.81] B" =
      [['[', '0', '0', ':', '1', '5', '.', '3', '2', ']', ' ', 'A'],
       ['[', '0', '0', ':', '1', '7', '.', '8', '1', ']', ' ', 'B']] := by decide
  have h2 : scanTs ['[', '0', '0', ':', '1', '5', '.', '3', '2', ']', ' ', 'A'] =
      [⟨'0', '0', '1', '5', ['3', '2']⟩] := by decide
  have h3 : scanTs ['[', '0', '0', ':', '1', '7', '.', '8', '1', ']', ' ', 'B'] =
      [⟨'0', '0', '1', '7', ['8', '1']⟩] := by decide
  have h4 : trimChars (stripTs ['[', '0', '0', ':', '1', '5', '.', '3', '2', ']', ' ', 'A']) =
      ['A'] := by decide
  have h5 : trimChars (stripTs ['[', '0', '0', ':', '1', '7', '.', '8', '1', ']', ' ', 'B']) =
      ['B'] := by decide
  have d1 : digitsToNat ['0', '0'] = 0 := by decide
  have d2 : digitsToNat ['1', '5'] = 15 := by decide
  have d3 : digitsToNat ['3', '2'] = 32 := by decide
  have d4 : digitsToNat ['1', '7'] = 17 := by decide
  have d5 : digitsToNat ['8', '1'] = 81 := by decide
  have e1 : tsStartTime ⟨'0', '0', '1', '5', ['3', '2']⟩ = 1532/100 := by
    simp only [tsStartTime, d1, d2, d3]
    norm_num
  have e2 : tsStartTime ⟨'0', '0', '1', '7', ['8', '1']⟩ = 1781/100 := by
    simp only [tsStartTime, d1, d4, d5]
    norm_num
  rw [parseLyrics, h1]
  norm_num [parseLrcLines, h2, h3, h4, h5, e1, e2, sortByStartTime, List.insertionSort,
    List.orderedInsert, byStartTime, String.mk]
  exact fun hE => absurd hE (List.cons_ne_nil _ _)

/-- C3: a line position carrying a well-formed timestamp token, with
two-digit minutes and seconds and a two- or three-digit fraction and either
separator, matches exactly that token, and its start time is
minutes*60 + seconds + fraction/100 for a two-digit fraction and
minutes*60 + seconds + fraction/1000 for a three-digit fraction; parsing
the two-line example from the spec yields texts A and B with start times
15.32 and 17.81. -/
theorem claim_C3_timestamp_format :
    (∀ (m1 m2 s1 s2 f1 f2 sep : Char) (rest : List Char),
      m1.isDigit = true → m2.isDigit = true → s1.isDigit = true → s2.isDigit = true →
      f1.isDigit = true → f2.isDigit = true → (sep = '.' ∨ sep = ':') →
      matchTsAt ('[' :: m1 :: m2 :: ':' :: s1 :: s2 :: sep :: f1 :: f2 :: ']' :: rest) =
          some (⟨m1, m2, s1, s2, [f1, f2]⟩, rest) ∧
        tsStartTime ⟨m1, m2, s1, s2, [f1, f2]⟩ =
          ((10 * digitVal m1 + digitVal m2 : ℕ) : ℚ) * 60 +
            ((10 * digitVal s1 + digitVal s2 : ℕ) : ℚ) +
            ((10 * digitVal f1 + digitVal f2 : ℕ) : ℚ) / 100) ∧
    (∀ (m1 m2 s1 s2 f1 f2 f3 sep : Char) (rest : List Char),
      m1.isDigit = true → m2.isDigit = true → s1.isDigit = true → s2.isDigit = true →
      f1.isDigit = true → f2.isDigit = true → f3.isDigit = true → (sep = '.' ∨ sep = ':') →
      matchTsAt ('[' :: m1 :: m2 :: ':' :: s1 :: s2 :: sep :: f1 :: f2 :: f3 :: ']' :: rest) =
          some (⟨m1, m2, s1, s2, [f1, f2, f3]⟩, rest) ∧
        tsStartTime ⟨m1, m2, s1, s2, [f1, f2, f3]⟩ =
          ((10 * digitVal m1 + digitVal m2 : ℕ) : ℚ) * 60 +
            ((10 * digitVal s1 + digitVal s2 : ℕ) : ℚ) +
            ((100 * digitVal f1 + 10 * digitVal f2 + digitVal f3 : ℕ) : ℚ) / 1000) ∧
    (∀ d, parseLyrics "[00:15.32] A\n[00:17.81] B" d = [⟨"A", 1532/100⟩, ⟨"B", 1781/100⟩]) :=
  ⟨fun m1 m2 s1 s2 f1 f2 sep rest h1 h2 h3 h4 h5 h6 hsep =>
    ⟨matchTsAt_two_digit m1 m2 s1 s2 f1 f2 sep rest h1 h2 h3 h4 h5 h6 hsep,
      tsStartTime_two_digit m1 m2 s1 s2 f1 f2⟩,
   fun m1 m2 s1 s2 f1 f2 f3 sep rest h1 h2 h3 h4 h5 h6 h7 hsep =>
    ⟨matchTsAt_three_digit m1 m2 s1 s2 f1 f2 f3 sep rest h1 h2 h3 h4 h5 h6 h7 hsep,
      tsStartTime_three_digit m1 m2 s1 s2 f1 f2 f3⟩,
   parseLyrics_roundTrip⟩

/-- Witness for C3: the generic parts instantiated with the concrete digits
of the token 01:23.45 and of the three-digit token 01:23:456. -/
theorem claim_C3_timestamp_format_witness :
    (('0'.isDigit = true ∧ '1'.isDigit = true ∧ '2'.isDigit = true ∧ '3'.isDigit = true ∧
        '4'.isDigit = true ∧ '5'.isDigit = true ∧ '6'.isDigit = true ∧
        (('.' : Char) = '.' ∨ ('.' : Char) = ':') ∧ ((':' : Char) = '.' ∨ (':' : Char) = ':')) ∧
      (matchTsAt ('[' :: '0' :: '1' :: ':' :: '2' :: '3' :: '.' :: '4' :: '5' :: ']' :: []) =
          some (⟨'0', '1', '2', '3', ['4', '5']⟩, []) ∧
        tsStartTime ⟨'0', '1', '2', '3', ['4', '5']⟩ =
          ((10 * digitVal '0' + digitVal '1' : ℕ) : ℚ) * 60 +
            ((10 * digitVal '2' + digitVal '3' : ℕ) : ℚ) +
            ((10 * digitVal '4' + digitVal '5' : ℕ) : ℚ) / 100) ∧
      (matchTsAt ('[' :: '0' :: '1' :: ':' :: '2' :: '3' :: ':' :: '4' :: '5' :: '6' :: ']' :: []) =
          some (⟨'0', '1', '2', '3', ['4', '5', '6']⟩, []) ∧
        tsStartTime ⟨'0', '1', '2', '3', ['4', '5', '6']⟩ =
          ((10 * digitVal '0' + digitVal '1' : ℕ) : ℚ) * 60 +
            ((10 * digitVal '2' + digitVal '3' : ℕ) : ℚ) +
            ((100 * digitVal '4' + 10 * digitVal '5' + digitVal '6' : ℕ) : ℚ) / 1000)) :=
  ⟨⟨by decide, by decide, by decide, by decide, by decide, by decide, by decide,
      Or.inl rfl, Or.inr rfl⟩,
    claim_C3_timestamp_format.1 '0' '1' '2' '3' '4' '5' '.' []
      (by decide) (by decide) (by decide) (by decide) (by decide) (by decide) (Or.inl rfl),
    claim_C3_timestamp_format.2.1 '0' '1' '2' '3' '4' '5' '6' ':' []
      (by decide) (by decide) (by decide) (by decide) (by decide) (by decide) (by decide)
      (Or.inr rfl)⟩

/-- C8: parsing is total and degrades gracefully: the malformed timestamp
token with wrong digit counts matches nothing, an input whose only
timestamp-like content is malformed falls back entirely to even-division
timing (shown with a two-line input and duration 10), and inputs with zero
non-empty lines, the empty string included, yield the empty sequence. -/
theorem claim_C8_graceful_degradation :
    scanTs "[1:2.3]text".data = [] ∧
    (∀ d, parseLyrics "[1:2.3]text\nplain" d =
        calculateTimings (nonEmptyLines "[1:2.3]text\nplain") d) ∧
    parseLyrics "[1:2.3]text\nplain" (some 10) =
      [⟨"[1:2.3]text", 0⟩, ⟨"plain", 5⟩] ∧
    (∀ d, parseLyrics "" d = []) ∧
    (∀ d, updateTimedLyrics [] "" d = []) ∧
    (∀ d, parseLyrics " \n\t" d = []) := by
  have hno : ∀ l ∈ nonEmptyLines "[1:2.3]text\nplain", scanTs l = [] := by decide
  have hne : nonEmptyLines "[1:2.3]text\nplain" =
      [['[', '1', ':', '2', '.', '3', ']', 't', 'e', 'x', 't'],
       ['p', 'l', 'a', 'i', 'n']] := by decide
  refine ⟨by decide, fun d => parseLyrics_fallback _ d hno, ?_, ?_, ?_, ?_⟩
  · rw [parseLyrics_fallback _ _ hno, hne]
    norm_num [calculateTimings, List.enum, List.enumFrom]
  · intro d
    rfl
  · intro d
    rfl
  · intro d
    rfl

/-- C5 counterexample: on the last line with a known zero duration the
calculation returns the fallback 5, not duration minus start time (which
would be 0), because the JavaScript truthiness test treats a zero duration
like an absent one. -/
theorem claim_C5_counterexample :
    getMarqueeDuration [⟨"a", 0⟩] 0 (some 0) = 5 ∧
      (0 : ℚ) - tlStart [(⟨"a", 0⟩ : TimedLine)] 0 ≠ 5 := by
  constructor
  · decide
  · norm_num [tlStart, defaultTL]

/-- C5 amended: for indexes at most the last index, the marquee duration is
0 when the index is negative or the sequence empty; the gap to the next
line when one exists; duration minus current start when on the last line
with a known nonzero duration; and the constant 5 otherwise (duration
unknown, or zero and hence falsy). -/
theorem claim_C5_marquee_duration (l : List TimedLine) (i : Int) (d : Option ℚ) :
    (i < 0 ∨ l = [] → getMarqueeDuration l i d = 0) ∧
    (0 ≤ i → i + 1 < (l.length : Int) →
      getMarqueeDuration l i d = tlStart l (i.toNat + 1) - tlStart l i.toNat) ∧
    (∀ x, 0 ≤ i → i + 1 = (l.length : Int) → d = some x → x ≠ 0 →
      getMarqueeDuration l i d = x - tlStart l i.toNat) ∧
    (0 ≤ i → i + 1 = (l.length : Int) → (d = none ∨ d = some 0) →
      getMarqueeDuration l i d = 5) := by
  refine ⟨?_, ?_, ?_, ?_⟩
  · intro h
    rw [getMarqueeDuration, if_pos h]
  · intro h0 hlt
    have hne : ¬(i < 0 ∨ l = []) := by
      rintro (h | rfl)
      · omega
      · simp at hlt
        omega
    have hbound : i.toNat + 1 < l.length := by omega
    rw [getMarqueeDuration, if_neg hne]
    simp only [List.getElem?_eq_getElem hbound]
    rw [tlStart, tlStart, List.getD_eq_getElem _ _ hbound,
      List.getD_eq_getElem _ _ (by omega : i.toNat < l.length)]
  · intro x h0 hEq hd hx
    have hne : ¬(i < 0 ∨ l = []) := by
      rintro (h | rfl)
      · omega
      · simp at hEq
        omega
    have hbound : l.length ≤ i.toNat + 1 := by omega
    rw [getMarqueeDuration, if_neg hne]
    simp only [List.getElem?_eq_none hbound, hd]
    rw [if_pos hx]
    rfl
  · intro h0 hEq hd
    have hne : ¬(i < 0 ∨ l = []) := by
      rintro (h | rfl)
      · omega
      · simp at hEq
        omega
    have hbound : l.length ≤ i.toNat + 1 := by omega
    rw [getMarqueeDuration, if_neg hne]
    simp only [List.getElem?_eq_none hbound]
    rcases hd with rfl | rfl
    · rfl
    · simp

/-- Witness for C5, the spec example: starts 0, 5, 8; index 1 gives 3;
index 2 with duration 12 gives 4; index 2 with unknown duration gives 5. -/
theorem claim_C5_marquee_duration_witness :
    getMarqueeDuration [⟨"a", 0⟩, ⟨"b", 5⟩, ⟨"c", 8⟩] 1 (some 12) = 3 ∧
      getMarqueeDuration [⟨"a", 0⟩, ⟨"b", 5⟩, ⟨"c", 8⟩] 2 (some 12) = 4 ∧
      getMarqueeDuration [⟨"a", 0⟩, ⟨"b", 5⟩, ⟨"c", 8⟩] 2 none = 5 :=
  ⟨((claim_C5_marquee_duration [⟨"a", 0⟩, ⟨"b", 5⟩, ⟨"c", 8⟩] 1 (some 12)).2.1
      (by decide) (by decide)).trans (by norm_num [tlStart, defaultTL]),
   ((claim_C5_marquee_duration [⟨"a", 0⟩, ⟨"b", 5⟩, ⟨"c", 8⟩] 2 (some 12)).2.2.1 12
      (by decide) (by decide) rfl (by norm_num)).trans
      (by norm_num [tlStart, defaultTL, show Int.toNat 2 = 2 from rfl,
        List.getElem_cons_succ, List.getElem_cons_zero]),
   (claim_C5_marquee_duration [⟨"a", 0⟩, ⟨"b", 5⟩, ⟨"c", 8⟩] 2 none).2.2.2
      (by decide) (by decide) (Or.inl rfl)⟩

theorem parseLyrics_big_timestamps :
    parseLyrics "[00:00.00]a\n[03:20.00]b" (some 100) = [⟨"a", 0⟩, ⟨"b", 200⟩] := by
  have h1 : nonEmptyLines "[00:00.00]a\n[03:20.00]b" =
      [['[', '0', '0', ':', '0', '0', '.', '0', '0', ']', 'a'],
       ['[', '0', '3', ':', '2', '0', '.', '0', '0', ']', 'b']] := by decide
  have h2 : scanTs ['[', '0', '0', ':', '0', '0', '.', '0', '0', ']', 'a'] =
      [⟨'0', '0', '0', '0', ['0', '0']⟩] := by decide
  have h3 : scanTs ['[', '0', '3', ':', '2', '0', '.', '0', '0', ']', 'b'] =
      [⟨'0', '3', '2', '0', ['0', '0']⟩] := by decide
  have h4 : trimChars (stripTs ['[', '0', '0', ':', '0', '0', '.', '0', '0', ']', 'a']) =
      ['a'] := by decide
  have h5 : trimChars (stripTs ['[', '0', '3', ':', '2', '0', '.', '0', '0', ']', 'b']) =
      ['b'] := by decide
  have d1 : digitsToNat ['0', '0'] = 0 := by decide
  have d2 : digitsToNat ['0', '3'] = 3 := by decide
  have d3 : digitsToNat ['2', '0'] = 20 := by decide
  have e1 : tsStartTime ⟨'0', '0', '0', '0', ['0', '0']⟩ = 0 := by
    simp only [tsStartTime, d1]
    norm_num
  have e2 : tsStartTime ⟨'0', '3', '2', '0', ['0', '0']⟩ = 200 := by
    simp only [tsStartTime, d1, d2, d3]
    norm_num
  rw [parseLyrics, h1]
  norm_num [parseLrcLines, h2, h3, h4, h5, e1, e2, sortByStartTime, List.insertionSort,
    List.orderedInsert, byStartTime, String.mk]
  exact fun hE => absurd hE (List.cons_ne_nil _ _)

/-- C6 counterexample: a parsed sequence whose last timestamp (200 seconds)
exceeds the known audio duration (100 seconds) makes the marquee duration
negative on the last line: 100 - 200 = -100. -/
theorem claim_C6_counterexample :
    getMarqueeDuration (parseLyrics "[00:00.00]a\n[03:20.00]b" (some 100)) 1 (some 100) < 0 := by
  rw [parseLyrics_big_timestamps]
  rw [getMarqueeDuration, if_neg (by decide)]
  norm_num

/-- C6 amended: for every parsed sequence, valid active index (at most the
last index) and audio duration that, when known, is at least every start
time of the sequence, the marquee duration is never negative. -/
theorem claim_C6_nonnegative (lyrics : String) (dp : Option ℚ) (i : Int) (d : Option ℚ)
    (hi : i < ((parseLyrics lyrics dp).length : Int) ∨ parseLyrics lyrics dp = [])
    (hd : ∀ x, d = some x → ∀ tl ∈ parseLyrics lyrics dp, tl.startTime ≤ x) :
    0 ≤ getMarqueeDuration (parseLyrics lyrics dp) i d := by
  have hsort := parseLyrics_sorted lyrics dp
  set l := parseLyrics lyrics dp with hl
  by_cases h0 : i < 0 ∨ l = []
  · rw [getMarqueeDuration, if_pos h0]
  · rw [getMarqueeDuration, if_neg h0]
    push_neg at h0
    obtain ⟨hpos, hnil⟩ := h0
    have hlen : i < (l.length : Int) := by
      rcases hi with h | h
      · exact h
      · exact absurd h hnil
    have hmem : i.toNat < l.length := by omega
    cases hnext : l[i.toNat + 1]? with
    | some nx =>
      have hb : i.toNat + 1 < l.length := by
        by_contra hc
        rw [List.getElem?_eq_none (by omega)] at hnext
        exact Option.noConfusion hnext
      have hnx : nx = l[i.toNat + 1] := by
        rw [List.getElem?_eq_getElem hb] at hnext
        exact (Option.some.inj hnext).symm
      simp only []
      have hrel : byStartTime l[i.toNat] l[i.toNat + 1] :=
        List.pairwise_iff_getElem.mp hsort i.toNat (i.toNat + 1) hmem hb (by omega)
      rw [sub_nonneg, hnx, List.getD_eq_getElem _ _ hmem]
      exact hrel
    | none =>
      cases d with
      | none => norm_num
      | some x =>
        dsimp only
        by_cases hx : x = 0
        · simp [hx]
        · rw [if_pos hx, sub_nonneg, List.getD_eq_getElem _ _ hmem]
          exact hd x rfl _ (List.getElem_mem hmem)

/-- Witness for C6: the even-division parse of two plain lines with
duration 10, last index, unknown marquee duration. -/
theorem claim_C6_nonnegative_witness :
    ((1 : Int) < ((parseLyrics "a\nb" (some 10)).length : Int) ∨
        parseLyrics "a\nb" (some 10) = []) ∧
      0 ≤ getMarqueeDuration (parseLyrics "a\nb" (some 10)) 1 none := by
  have hlen : (parseLyrics "a\nb" (some 10)).length = 2 := by
    rw [parseLyrics_fallback "a\nb" (some 10) (by decide)]
    norm_num [calculateTimings]
    decide
  constructor
  · left
    rw [hlen]
    norm_num
  · exact claim_C6_nonnegative "a\nb" (some 10) 1 none
      (by left; rw [hlen]; norm_num) (fun x h => Option.noConfusion h)

theorem splitLines_ne_nil (cs : List Char) : splitLines cs ≠ [] := by
  cases cs with
  | nil => simp [splitLines]
  | cons c cs =>
    dsimp only [splitLines]
    split
    · simp
    · cases h : splitLines cs <;> simp

theorem isLrcFormat_iff (text : String) :
    isLrcFormat text = true ↔
      text ≠ "" ∧
        (splitLines (trimChars text.data)).length <
          2 * ((splitLines (trimChars text.data)).filter lrcLineTest).length := by
  by_cases hT : text = ""
  · subst hT
    simp [isLrcFormat]
  · have hpos : 0 < (splitLines (trimChars text.data)).length :=
      List.length_pos.mpr (splitLines_ne_nil _)
    have hq : (0 : ℚ) < ((splitLines (trimChars text.data)).length : ℚ) := by
      exact_mod_cast hpos
    dsimp only [isLrcFormat]
    rw [if_neg hT]
    simp only [Bool.and_eq_true, decide_eq_true_eq]
    rw [div_lt_div_iff₀ (by norm_num) hq]
    constructor
    · rintro ⟨-, h2⟩
      refine ⟨hT, ?_⟩
      rw [one_mul] at h2
      exact_mod_cast (by linarith :
        ((splitLines (trimChars text.data)).length : ℚ) <
          2 * (((splitLines (trimChars text.data)).filter lrcLineTest).length : ℚ))
    · rintro ⟨-, h2⟩
      refine ⟨hpos, ?_⟩
      rw [one_mul]
      have : ((splitLines (trimChars text.data)).length : ℚ) <
          2 * (((splitLines (trimChars text.data)).filter lrcLineTest).length : ℚ) := by
        exact_mod_cast h2
      linarith

/-- C7 counterexample: a text with two timestamped lines, one interior
blank line and one plain line. More than half of its non-empty lines are
timestamped (2 of 3), so the claim says accept, but the code counts the
blank line in the denominator (2 of 4) and rejects. -/
theorem claim_C7_counterexample :
    isLrcFormatSpec "[00:00.00]a\n\n[00:00.01]b\nx" = true ∧
      isLrcFormat "[00:00.00]a\n\n[00:00.01]b\nx" = false := by
  constructor
  · decide
  · rw [Bool.eq_false_iff]
    intro hacc
    have h := (isLrcFormat_iff _).mp hacc
    have h4 : (splitLines (trimChars ("[00:00.00]a\n\n[00:00.01]b\nx").data)).length = 4 := by
      decide
    have h2 : ((splitLines (trimChars ("[00:00.00]a\n\n[00:00.01]b\nx").data)).filter
        lrcLineTest).length = 2 := by decide
    rw [h4, h2] at h
    omega

/-- C7 amended: the validator accepts exactly the non-empty texts in which
more than half of ALL lines of the trimmed text (split at newlines, with
interior empty lines counted in the denominator) begin with a timestamp
after per-line trimming; non-empty lines alone are not the denominator. -/
theorem claim_C7_validation (text : String) :
    isLrcFormat text = true ↔
      text ≠ "" ∧
        (splitLines (trimChars text.data)).length <
          2 * ((splitLines (trimChars text.data)).filter lrcLineTest).length :=
  isLrcFormat_iff text

end WG
